import Mathlib

/-!
Verification of `Nova/Resources/WakewordModels/conversion.py`, the
ONNX → Core ML batch conversion script.

The script is a sequential loop over a fixed list of model basenames.
Each iteration prints a progress line, calls `onnx.load`, `ct.convert`
and `mlmodel.save`, and catches any ordinary Python `Exception` raised
by those calls at per-item granularity, printing an error line and
continuing with the next name.

The three external library calls are modelled by an oracle (`World`)
mapping each call to a result: a normal return value, an ordinary
`Exception` carrying a message, or a `BaseException` that is not an
`Exception` (such as `KeyboardInterrupt` or `SystemExit`), which the
script's `except Exception` handler does not catch.  The observable
behaviour of a run is a trace of events: console prints, file reads,
conversion invocations (recording the configuration used), and file
writes.  ONNX models and Core ML models are opaque tokens (`Nat`).
-/

/-- Result of an external library call, as seen by Python control flow:
`ok` returns normally, `exc` raises an ordinary `Exception` with a
message (caught by the script's `except Exception as e` handler), and
`fatal` raises a `BaseException` that is not an `Exception`, which that
handler does not catch. -/
inductive CallResult (α : Type) where
  | ok (a : α)
  | exc (msg : String)
  | fatal (msg : String)
deriving Repr, DecidableEq

/-- Whether a call result is an uncatchable (non-`Exception`) raise. -/
def CallResult.isFatal {α : Type} : CallResult α → Bool
  | .fatal _ => true
  | _ => false

/-- The options of a `ct.convert` invocation: minimum deployment target,
compute units, and the optional explicit input tensor shape. -/
structure Config where
  minimumDeploymentTarget : String
  computeUnits : String
  inputShape : Option (List Nat)
deriving Repr, DecidableEq

/-- Modelled from the spec: `coremltools`' own default for the
`compute_units` option, which the call site in `conversion.py` does not
pass, is "ALL" (CPU + GPU + accelerator).  The library is external, so
its default is taken from the spec's description of the conversion
configuration. -/
def defaultComputeUnits : String := "ALL"

/-- Modelled from the spec: the optional explicit input tensor shape is
unset by default, and the call site in `conversion.py` does not set it. -/
def defaultInputShape : Option (List Nat) := none

/-- The configuration every `ct.convert` call in the script uses: the
script passes `minimum_deployment_target=ct.target.iOS13` explicitly and
leaves the other options to the library defaults. -/
def convertCallConfig : Config :=
  { minimumDeploymentTarget := "iOS13"
  , computeUnits := defaultComputeUnits
  , inputShape := defaultInputShape }

/-- Oracle for the three external library calls: `onnx.load` on a path,
`ct.convert` on a loaded model and a configuration, `mlmodel.save` on a
converted model and a target path. -/
structure World where
  load : String → CallResult Nat
  convert : Nat → Config → CallResult Nat
  save : Nat → String → CallResult Unit

/-- Observable events of a run: a console line, a file read, a
conversion invocation, a file write. -/
inductive Event where
  | print (line : String)
  | read (path : String)
  | convert (model : Nat) (cfg : Config)
  | write (path : String) (content : Nat)
deriving Repr, DecidableEq

/-- `print(f"Converting {name} ({onnx_path} → {mlmodel_path})")`. -/
def progressLine (name : String) : String :=
  "Converting " ++ name ++ " (" ++ name ++ ".onnx → " ++ name ++ ".mlmodel)"

/-- `print(f"✅ {name} saved to {mlmodel_path}\n")`. -/
def successLine (name : String) : String :=
  "✅ " ++ name ++ " saved to " ++ name ++ ".mlmodel\n"

/-- `print(f"❌ Error converting {name}: {e}\n")`. -/
def errorLine (name : String) (e : String) : String :=
  "❌ Error converting " ++ name ++ ": " ++ e ++ "\n"

/-- One iteration of the script's `for name in models` loop: print the
progress line, then try `onnx.load`, `ct.convert`, `mlmodel.save` in
order; an ordinary `Exception` from any of the three is caught and turned
into an error line, after which the iteration ends normally.  Returns the
events of the iteration and `some msg` exactly when a non-`Exception`
raise escaped the handler (aborting the whole run). -/
def processOne (w : World) (name : String) : List Event × Option String :=
  match w.load (name ++ ".onnx") with
  | .fatal m =>
      ([.print (progressLine name), .read (name ++ ".onnx")], some m)
  | .exc m =>
      ([.print (progressLine name), .read (name ++ ".onnx"),
        .print (errorLine name m)], none)
  | .ok onnx_model =>
    match w.convert onnx_model convertCallConfig with
    | .fatal m =>
        ([.print (progressLine name), .read (name ++ ".onnx"),
          .convert onnx_model convertCallConfig], some m)
    | .exc m =>
        ([.print (progressLine name), .read (name ++ ".onnx"),
          .convert onnx_model convertCallConfig,
          .print (errorLine name m)], none)
    | .ok mlmodel =>
      match w.save mlmodel (name ++ ".mlmodel") with
      | .fatal m =>
          ([.print (progressLine name), .read (name ++ ".onnx"),
            .convert onnx_model convertCallConfig], some m)
      | .exc m =>
          ([.print (progressLine name), .read (name ++ ".onnx"),
            .convert onnx_model convertCallConfig,
            .print (errorLine name m)], none)
      | .ok _ =>
          ([.print (progressLine name), .read (name ++ ".onnx"),
            .convert onnx_model convertCallConfig,
            .write (name ++ ".mlmodel") mlmodel,
            .print (successLine name)], none)

/-- The hard-coded model list: `models = ["jarvis", "embedding_model",
"melspectrogram"]`. -/
def models : List String := ["jarvis", "embedding_model", "melspectrogram"]

/-- The loop over a list of model names: process each in order; an
uncaught (non-`Exception`) raise stops the loop, otherwise the events
accumulate in list order. -/
def runModels (w : World) : List String → List Event × Option String
  | [] => ([], none)
  | name :: rest =>
    match (processOne w name).2 with
    | some m => ((processOne w name).1, some m)
    | none =>
        ((processOne w name).1 ++ (runModels w rest).1, (runModels w rest).2)

/-- The whole script: the loop over the hard-coded list. -/
def runBatch (w : World) : List Event × Option String := runModels w models

/-- The console transcript of a trace: the printed lines, in order. -/
def consoleOf (evs : List Event) : List String :=
  evs.filterMap fun e =>
    match e with
    | .print s => some s
    | _ => none

/-- A filesystem snapshot: an association of paths to file contents. -/
def FileSystem : Type := List (String × Nat)

/-- Overwrite (or create) the file at path `p` with content `v`. -/
def fsSet (fs : FileSystem) (p : String) (v : Nat) : FileSystem :=
  match fs with
  | [] => [(p, v)]
  | (q, u) :: rest => if q = p then (p, v) :: rest else (q, u) :: fsSet rest p v

/-- Look up the content of the file at path `p`, if present. -/
def fsGet (fs : FileSystem) (p : String) : Option Nat :=
  match fs with
  | [] => none
  | (q, u) :: rest => if q = p then some u else fsGet rest p

/-- Replay one event against a filesystem snapshot: only writes change it. -/
def applyEvent (fs : FileSystem) : Event → FileSystem
  | .write p v => fsSet fs p v
  | _ => fs

/-- Replay a trace against a filesystem snapshot. -/
def applyEvents (fs : FileSystem) (evs : List Event) : FileSystem :=
  evs.foldl applyEvent fs

/-- A world whose failures are all ordinary `Exception`s: no external
call raises a `BaseException` outside the `Exception` class. -/
def NoFatal (w : World) : Prop :=
  (∀ p, (w.load p).isFatal = false) ∧
  (∀ m c, (w.convert m c).isFatal = false) ∧
  (∀ m p, (w.save m p).isFatal = false)

/-- A world in which every load, convert and save succeeds. -/
def okWorld : World :=
  { load := fun _ => .ok 1
  , convert := fun _ _ => .ok 2
  , save := fun _ _ => .ok () }

/-- A world in which every load fails with an ordinary `Exception`
(e.g. the source file is missing). -/
def excWorld : World :=
  { load := fun _ => .exc "No such file or directory"
  , convert := fun _ _ => .ok 2
  , save := fun _ _ => .ok () }

/-- A world in which every load raises `KeyboardInterrupt`, a
`BaseException` that is not an `Exception`. -/
def fatalWorld : World :=
  { load := fun _ => .fatal "KeyboardInterrupt"
  , convert := fun _ _ => .ok 2
  , save := fun _ _ => .ok () }


/-! ### Helper lemmas -/

/-- When an iteration ends normally the loop continues: the run over
`name :: rest` is the iteration's events followed by the run over `rest`. -/
theorem runModels_cons_none (w : World) (name : String) (rest : List String)
    (h : (processOne w name).2 = none) :
    runModels w (name :: rest) =
      ((processOne w name).1 ++ (runModels w rest).1, (runModels w rest).2) := by
  simp [runModels, h]

/-- When an iteration aborts, the loop stops: the run over `name :: rest`
is exactly the iteration's events and the abort. -/
theorem runModels_cons_some (w : World) (name : String) (rest : List String)
    (m : String) (h : (processOne w name).2 = some m) :
    runModels w (name :: rest) = ((processOne w name).1, some m) := by
  simp [runModels, h]

/-- Every event of a run belongs to the iteration of some listed name. -/
theorem mem_runModels (w : World) (ms : List String) (e : Event)
    (h : e ∈ (runModels w ms).1) : ∃ n ∈ ms, e ∈ (processOne w n).1 := by
  induction ms with
  | nil => simp [runModels] at h
  | cons name rest ih =>
    by_cases hf : (processOne w name).2 = none
    · rw [runModels_cons_none w name rest hf] at h
      rcases List.mem_append.mp h with h1 | h2
      · exact ⟨name, by simp, h1⟩
      · obtain ⟨n, hn, he⟩ := ih h2
        exact ⟨n, by simp [hn], he⟩
    · obtain ⟨m, hm⟩ := Option.ne_none_iff_exists'.mp hf
      rw [runModels_cons_some w name rest m hm] at h
      exact ⟨name, by simp, h⟩

/-- In a world without uncatchable raises, every iteration ends normally. -/
theorem processOne_snd_none (w : World) (hw : NoFatal w) (name : String) :
    (processOne w name).2 = none := by
  obtain ⟨hl, hc, hs⟩ := hw
  cases h1 : w.load (name ++ ".onnx") with
  | fatal m =>
    exfalso; have := hl (name ++ ".onnx"); rw [h1] at this
    simp [CallResult.isFatal] at this
  | exc m => simp [processOne, h1]
  | ok om =>
    cases h2 : w.convert om convertCallConfig with
    | fatal m =>
      exfalso; have := hc om convertCallConfig; rw [h2] at this
      simp [CallResult.isFatal] at this
    | exc m => simp [processOne, h1, h2]
    | ok mm =>
      cases h3 : w.save mm (name ++ ".mlmodel") with
      | fatal m =>
        exfalso; have := hs mm (name ++ ".mlmodel"); rw [h3] at this
        simp [CallResult.isFatal] at this
      | exc m => simp [processOne, h1, h2, h3]
      | ok u => simp [processOne, h1, h2, h3]

/-- Every iteration's trace starts with the progress print for its name. -/
theorem processOne_head (w : World) (name : String) :
    ∃ tl, (processOne w name).1 = Event.print (progressLine name) :: tl := by
  cases h1 : w.load (name ++ ".onnx") with
  | fatal m =>
    exact ⟨[.read (name ++ ".onnx")], by simp [processOne, h1]⟩
  | exc m =>
    exact ⟨[.read (name ++ ".onnx"), .print (errorLine name m)],
      by simp [processOne, h1]⟩
  | ok om =>
    cases h2 : w.convert om convertCallConfig with
    | fatal m =>
      exact ⟨[.read (name ++ ".onnx"), .convert om convertCallConfig],
        by simp [processOne, h1, h2]⟩
    | exc m =>
      exact ⟨[.read (name ++ ".onnx"), .convert om convertCallConfig,
        .print (errorLine name m)], by simp [processOne, h1, h2]⟩
    | ok mm =>
      cases h3 : w.save mm (name ++ ".mlmodel") with
      | fatal m =>
        exact ⟨[.read (name ++ ".onnx"), .convert om convertCallConfig],
          by simp [processOne, h1, h2, h3]⟩
      | exc m =>
        exact ⟨[.read (name ++ ".onnx"), .convert om convertCallConfig,
          .print (errorLine name m)], by simp [processOne, h1, h2, h3]⟩
      | ok u =>
        exact ⟨[.read (name ++ ".onnx"), .convert om convertCallConfig,
          .write (name ++ ".mlmodel") mm, .print (successLine name)],
          by simp [processOne, h1, h2, h3]⟩

/-- Every write in an iteration's trace targets that name's `.mlmodel` path. -/
theorem processOne_write_path (w : World) (name : String) (p : String) (v : Nat)
    (h : Event.write p v ∈ (processOne w name).1) : p = name ++ ".mlmodel" := by
  cases h1 : w.load (name ++ ".onnx") with
  | fatal m => simp [processOne, h1] at h
  | exc m => simp [processOne, h1] at h
  | ok om =>
    cases h2 : w.convert om convertCallConfig with
    | fatal m => simp [processOne, h1, h2] at h
    | exc m => simp [processOne, h1, h2] at h
    | ok mm =>
      cases h3 : w.save mm (name ++ ".mlmodel") with
      | fatal m => simp [processOne, h1, h2, h3] at h
      | exc m => simp [processOne, h1, h2, h3] at h
      | ok u => simp [processOne, h1, h2, h3] at h; exact h.1

/-- Every conversion invocation in an iteration's trace uses the fixed
call-site configuration. -/
theorem processOne_convert_cfg (w : World) (name : String) (m : Nat) (c : Config)
    (h : Event.convert m c ∈ (processOne w name).1) : c = convertCallConfig := by
  cases h1 : w.load (name ++ ".onnx") with
  | fatal m1 => simp [processOne, h1] at h
  | exc m1 => simp [processOne, h1] at h
  | ok om =>
    cases h2 : w.convert om convertCallConfig with
    | fatal m2 => simp [processOne, h1, h2] at h; exact h.2
    | exc m2 => simp [processOne, h1, h2] at h; exact h.2
    | ok mm =>
      cases h3 : w.save mm (name ++ ".mlmodel") with
      | fatal m3 => simp [processOne, h1, h2, h3] at h; exact h.2
      | exc m3 => simp [processOne, h1, h2, h3] at h; exact h.2
      | ok u => simp [processOne, h1, h2, h3] at h; exact h.2

/-- In a world without uncatchable raises, each iteration's console
output is its progress line followed by exactly one outcome line, either
the success line or an error line for that name. -/
theorem consoleOf_processOne (w : World) (hw : NoFatal w) (name : String) :
    ∃ out, consoleOf (processOne w name).1 = [progressLine name, out] ∧
      (out = successLine name ∨ ∃ m, out = errorLine name m) := by
  obtain ⟨hl, hc, hs⟩ := hw
  cases h1 : w.load (name ++ ".onnx") with
  | fatal m =>
    exfalso; have := hl (name ++ ".onnx"); rw [h1] at this
    simp [CallResult.isFatal] at this
  | exc m =>
    exact ⟨errorLine name m, by simp [processOne, h1, consoleOf], Or.inr ⟨m, rfl⟩⟩
  | ok om =>
    cases h2 : w.convert om convertCallConfig with
    | fatal m =>
      exfalso; have := hc om convertCallConfig; rw [h2] at this
      simp [CallResult.isFatal] at this
    | exc m =>
      exact ⟨errorLine name m, by simp [processOne, h1, h2, consoleOf],
        Or.inr ⟨m, rfl⟩⟩
    | ok mm =>
      cases h3 : w.save mm (name ++ ".mlmodel") with
      | fatal m =>
        exfalso; have := hs mm (name ++ ".mlmodel"); rw [h3] at this
        simp [CallResult.isFatal] at this
      | exc m =>
        exact ⟨errorLine name m, by simp [processOne, h1, h2, h3, consoleOf],
          Or.inr ⟨m, rfl⟩⟩
      | ok u =>
        exact ⟨successLine name, by simp [processOne, h1, h2, h3, consoleOf],
          Or.inl rfl⟩

/-- Overwriting a path makes a later lookup of that path return the new
content, whether or not the path was present before. -/
theorem fsGet_fsSet (fs : FileSystem) (p : String) (v : Nat) :
    fsGet (fsSet fs p v) p = some v := by
  induction fs with
  | nil => simp [fsSet, fsGet]
  | cons hd tl ih =>
    obtain ⟨q, u⟩ := hd
    by_cases h : q = p
    · simp [fsSet, fsGet, h]
    · simp [fsSet, fsGet, h, ih]

/-- Two worlds whose external calls agree pointwise give the same
iteration behaviour. -/
theorem processOne_congr (w1 w2 : World)
    (hl : ∀ p, w1.load p = w2.load p)
    (hc : ∀ m c, w1.convert m c = w2.convert m c)
    (hs : ∀ m p, w1.save m p = w2.save m p) (name : String) :
    processOne w1 name = processOne w2 name := by
  simp only [processOne, hl, hc, hs]

/-- Two worlds whose external calls agree pointwise give the same run. -/
theorem runModels_congr (w1 w2 : World)
    (hl : ∀ p, w1.load p = w2.load p)
    (hc : ∀ m c, w1.convert m c = w2.convert m c)
    (hs : ∀ m p, w1.save m p = w2.save m p) (ms : List String) :
    runModels w1 ms = runModels w2 ms := by
  induction ms with
  | nil => rfl
  | cons name rest ih =>
    simp only [runModels, processOne_congr w1 w2 hl hc hs name, ih]

/-! ### Claims -/

/-- C1: for every configured list of model names and every pattern of
per-item load/convert/save failures (all of them ordinary exceptions),
every item in the list is attempted — its progress line appears in the
trace — and the batch completes its full pass (no abort): a failure
while processing item `i` never prevents item `i+1` from being
attempted. -/
theorem batch_completes_and_attempts_all (w : World) (ms : List String)
    (hw : NoFatal w) :
    (runModels w ms).2 = none ∧
      ∀ name ∈ ms, Event.print (progressLine name) ∈ (runModels w ms).1 := by
  induction ms with
  | nil => simp [runModels]
  | cons name rest ih =>
    have hn := processOne_snd_none w hw name
    rw [runModels_cons_none w name rest hn]
    refine ⟨ih.1, ?_⟩
    intro n hnm
    rcases List.mem_cons.mp hnm with h | h
    · subst h
      obtain ⟨tl, htl⟩ := processOne_head w n
      exact List.mem_append.mpr (Or.inl (by simp [htl]))
    · exact List.mem_append.mpr (Or.inr (ih.2 n h))

/-- Witness for C1 at a concrete world where every load fails with an
ordinary exception: the whole hard-coded list still completes and the
first name is attempted. -/
theorem batch_completes_and_attempts_all_witness :
    (runBatch excWorld).2 = none ∧
      Event.print (progressLine "jarvis") ∈ (runBatch excWorld).1 := by
  have h := batch_completes_and_attempts_all excWorld models
    ⟨fun _ => rfl, fun _ _ => rfl, fun _ _ => rfl⟩
  exact ⟨h.1, h.2 "jarvis" (by simp [models])⟩

/-- C2: when a model's load or conversion fails with an ordinary
exception carrying message `m`, the iteration emits the error line
naming the model, writes no file at all (so the target `.mlmodel` is
neither created nor modified), emits the progress line before the error
line, and the loop proceeds to the remaining names. -/
theorem load_or_convert_failure_isolated (w : World) (name : String)
    (rest : List String) (m : String)
    (h : w.load (name ++ ".onnx") = .exc m ∨
      ∃ om, w.load (name ++ ".onnx") = .ok om ∧
        w.convert om convertCallConfig = .exc m) :
    (processOne w name).2 = none ∧
    Event.print (errorLine name m) ∈ (processOne w name).1 ∧
    (∀ p v, Event.write p v ∉ (processOne w name).1) ∧
    (∃ tl, (processOne w name).1 = Event.print (progressLine name) :: tl ∧
      Event.print (errorLine name m) ∈ tl) ∧
    runModels w (name :: rest) =
      ((processOne w name).1 ++ (runModels w rest).1, (runModels w rest).2) := by
  rcases h with h1 | ⟨om, h1, h2⟩
  · have hn : (processOne w name).2 = none := by simp [processOne, h1]
    refine ⟨hn, ?_, ?_, ?_, runModels_cons_none w name rest hn⟩
    · simp [processOne, h1]
    · intro p v; simp [processOne, h1]
    · exact ⟨[.read (name ++ ".onnx"), .print (errorLine name m)],
        by simp [processOne, h1], by simp⟩
  · have hn : (processOne w name).2 = none := by simp [processOne, h1, h2]
    refine ⟨hn, ?_, ?_, ?_, runModels_cons_none w name rest hn⟩
    · simp [processOne, h1, h2]
    · intro p v; simp [processOne, h1, h2]
    · exact ⟨[.read (name ++ ".onnx"), .convert om convertCallConfig,
        .print (errorLine name m)], by simp [processOne, h1, h2], by simp⟩

/-- Witness for C2 at a concrete world whose loads all fail with a
file-not-found exception: the iteration for "b" ends normally, prints
the error line for "b", and writes no target file. -/
theorem load_or_convert_failure_isolated_witness :
    (processOne excWorld "b").2 = none ∧
    Event.print (errorLine "b" "No such file or directory") ∈
      (processOne excWorld "b").1 ∧
    Event.write ("b" ++ ".mlmodel") 2 ∉ (processOne excWorld "b").1 := by
  have h := load_or_convert_failure_isolated excWorld "b" []
    "No such file or directory" (Or.inl rfl)
  exact ⟨h.1, h.2.1, h.2.2.1 ("b" ++ ".mlmodel") 2⟩

/-- C3: when a model's load, conversion and save all succeed, the
iteration's trace is exactly the progress print, the source read, the
conversion, the write of the converted model to `<name>.mlmodel`, and
the success print; and the success line names the model and spells out
the target path. -/
theorem success_writes_target_and_reports (w : World) (name : String)
    (om mm : Nat)
    (h1 : w.load (name ++ ".onnx") = .ok om)
    (h2 : w.convert om convertCallConfig = .ok mm)
    (h3 : w.save mm (name ++ ".mlmodel") = .ok ()) :
    processOne w name =
      ([.print (progressLine name), .read (name ++ ".onnx"),
        .convert om convertCallConfig,
        .write (name ++ ".mlmodel") mm,
        .print (successLine name)], none) ∧
    successLine name =
      "✅ " ++ name ++ " saved to " ++ (name ++ ".mlmodel") ++ "\n" := by
  constructor
  · simp [processOne, h1, h2, h3]
  · simp [successLine, String.append_assoc]

/-- Witness for C3 at a concrete all-succeeding world and the name "a". -/
theorem success_writes_target_and_reports_witness :
    processOne okWorld "a" =
      ([.print (progressLine "a"), .read ("a" ++ ".onnx"),
        .convert 1 convertCallConfig,
        .write ("a" ++ ".mlmodel") 2,
        .print (successLine "a")], none) :=
  (success_writes_target_and_reports okWorld "a" 1 2 rfl rfl rfl).1

/-- C4: in any world without uncatchable raises (individual items may
succeed or fail), the run's trace over the hard-coded list is the
trace of "jarvis", then the trace of "embedding_model", then the trace
of "melspectrogram": every message of item `i` appears before any
message of item `i+1`. -/
theorem processing_order_is_list_order (w : World) (hw : NoFatal w) :
    (runBatch w).1 =
      (processOne w "jarvis").1 ++ (processOne w "embedding_model").1 ++
        (processOne w "melspectrogram").1 := by
  have h1 := processOne_snd_none w hw "jarvis"
  have h2 := processOne_snd_none w hw "embedding_model"
  have h3 := processOne_snd_none w hw "melspectrogram"
  simp only [runBatch, models]
  rw [runModels_cons_none w _ _ h1, runModels_cons_none w _ _ h2,
    runModels_cons_none w _ _ h3]
  simp [runModels, List.append_assoc]

/-- Witness for C4 at a concrete world where every load fails with an
ordinary exception. -/
theorem processing_order_is_list_order_witness :
    (runBatch excWorld).1 =
      (processOne excWorld "jarvis").1 ++
        (processOne excWorld "embedding_model").1 ++
        (processOne excWorld "melspectrogram").1 :=
  processing_order_is_list_order excWorld
    ⟨fun _ => rfl, fun _ _ => rfl, fun _ _ => rfl⟩

/-- C5: every conversion invocation in any run of the batch uses the
same fixed configuration: minimum deployment target "iOS13", compute
units "ALL" (the library default, since the call site passes none), and
no explicit input tensor shape. -/
theorem convert_config_uniform (w : World) (m : Nat) (c : Config)
    (h : Event.convert m c ∈ (runBatch w).1) :
    c = convertCallConfig ∧
      convertCallConfig =
        { minimumDeploymentTarget := "iOS13", computeUnits := "ALL",
          inputShape := none } := by
  obtain ⟨n, _, he⟩ := mem_runModels w models _ h
  exact ⟨processOne_convert_cfg w n m c he, rfl⟩

/-- Witness for C5 at a concrete all-succeeding world: the first
conversion event of the run carries the fixed configuration. -/
theorem convert_config_uniform_witness :
    convertCallConfig =
      { minimumDeploymentTarget := "iOS13", computeUnits := "ALL",
        inputShape := none } :=
  (convert_config_uniform okWorld 1 convertCallConfig
    (by simp [runBatch, models, runModels, processOne, okWorld])).2

/-- C6: when the target `<name>.mlmodel` already exists in the starting
filesystem and the model's load, conversion and save succeed, replaying
the iteration's trace overwrites the target with the freshly converted
model; the iteration raises nothing and its console output is just the
progress line and the success line (no prompt, no error). -/
theorem existing_target_silently_overwritten (w : World) (name : String)
    (fs0 : FileSystem) (old om mm : Nat)
    (_hex : fsGet fs0 (name ++ ".mlmodel") = some old)
    (h1 : w.load (name ++ ".onnx") = .ok om)
    (h2 : w.convert om convertCallConfig = .ok mm)
    (h3 : w.save mm (name ++ ".mlmodel") = .ok ()) :
    fsGet (applyEvents fs0 (processOne w name).1) (name ++ ".mlmodel") =
      some mm ∧
    (processOne w name).2 = none ∧
    consoleOf (processOne w name).1 = [progressLine name, successLine name] := by
  have he : processOne w name =
      ([.print (progressLine name), .read (name ++ ".onnx"),
        .convert om convertCallConfig,
        .write (name ++ ".mlmodel") mm,
        .print (successLine name)], none) := by
    simp [processOne, h1, h2, h3]
  refine ⟨?_, by simp [he], by simp [he, consoleOf]⟩
  simp [he, applyEvents, applyEvent, fsGet_fsSet]

/-- Witness for C6: a starting filesystem already holding "a.mlmodel"
with stale content 7 ends up holding the fresh conversion 2, with a
clean success transcript. -/
theorem existing_target_silently_overwritten_witness :
    fsGet (applyEvents [("a.mlmodel", 7)] (processOne okWorld "a").1)
      ("a" ++ ".mlmodel") = some 2 ∧
    (processOne okWorld "a").2 = none ∧
    consoleOf (processOne okWorld "a").1 =
      [progressLine "a", successLine "a"] :=
  existing_target_silently_overwritten okWorld "a" [("a.mlmodel", 7)] 7 1 2
    (by simp [fsGet]) rfl rfl rfl

/-- C7: in any world without uncatchable raises, the console transcript
of the run is exactly the concatenation, in list order, of the
per-model transcripts, and each per-model transcript is the progress
line followed by exactly one outcome line (success or error) — in
particular nothing follows the last model's outcome, so there is no
aggregate summary. -/
theorem console_per_model_no_summary (w : World) (hw : NoFatal w) :
    consoleOf (runBatch w).1 =
      consoleOf (processOne w "jarvis").1 ++
        consoleOf (processOne w "embedding_model").1 ++
        consoleOf (processOne w "melspectrogram").1 ∧
    ∀ name ∈ models, ∃ out,
      consoleOf (processOne w name).1 = [progressLine name, out] ∧
      (out = successLine name ∨ ∃ m, out = errorLine name m) := by
  constructor
  · have h1 := processOne_snd_none w hw "jarvis"
    have h2 := processOne_snd_none w hw "embedding_model"
    have h3 := processOne_snd_none w hw "melspectrogram"
    simp only [runBatch, models]
    rw [runModels_cons_none w _ _ h1, runModels_cons_none w _ _ h2,
      runModels_cons_none w _ _ h3]
    simp [runModels, consoleOf, List.append_assoc]
  · intro name _
    exact consoleOf_processOne w hw name

/-- Witness for C7 at a concrete all-succeeding world: the run's
console transcript is the three per-model transcripts in order. -/
theorem console_per_model_no_summary_witness :
    consoleOf (runBatch okWorld).1 =
      consoleOf (processOne okWorld "jarvis").1 ++
        consoleOf (processOne okWorld "embedding_model").1 ++
        consoleOf (processOne okWorld "melspectrogram").1 :=
  (console_per_model_no_summary okWorld
    ⟨fun _ => rfl, fun _ _ => rfl, fun _ _ => rfl⟩).1

/-- C8: every file write in any run of the batch targets the `.mlmodel`
path of one of the configured names; in particular no `.onnx` source
path of a configured name is ever written. -/
theorem writes_only_targets (w : World) (p : String) (v : Nat)
    (h : Event.write p v ∈ (runBatch w).1) :
    (∃ n ∈ models, p = n ++ ".mlmodel") ∧
      ∀ n ∈ models, p ≠ n ++ ".onnx" := by
  obtain ⟨n, hn, he⟩ := mem_runModels w models _ h
  have hp := processOne_write_path w n p v he
  refine ⟨⟨n, hn, hp⟩, ?_⟩
  intro q hq
  subst hp
  simp only [models, List.mem_cons, List.not_mem_nil, or_false] at hn hq
  rcases hn with rfl | rfl | rfl <;> rcases hq with rfl | rfl | rfl <;> decide

/-- Witness for C8: the write produced by the all-succeeding world's
run of "jarvis" targets a listed `.mlmodel` path. -/
theorem writes_only_targets_witness :
    ∃ n ∈ models, ("jarvis" ++ ".mlmodel" : String) = n ++ ".mlmodel" :=
  (writes_only_targets okWorld ("jarvis" ++ ".mlmodel") 2
    (by simp [runBatch, models, runModels, processOne, okWorld])).1

/-- A second all-succeeding world, defined separately from `okWorld`
but agreeing with it call for call. -/
def okWorld2 : World :=
  { load := fun p => if p = p then .ok 1 else .exc "unreachable"
  , convert := fun _ _ => .ok 2
  , save := fun _ _ => .ok () }

/-- C9: the batch is deterministic — two runs in which the external
load, convert and save calls return the same results produce the same
trace, hence the same console output and the same final filesystem from
any starting snapshot. -/
theorem batch_deterministic (w1 w2 : World)
    (hl : ∀ p, w1.load p = w2.load p)
    (hc : ∀ m c, w1.convert m c = w2.convert m c)
    (hs : ∀ m p, w1.save m p = w2.save m p) :
    runBatch w1 = runBatch w2 ∧
    consoleOf (runBatch w1).1 = consoleOf (runBatch w2).1 ∧
    ∀ fs, applyEvents fs (runBatch w1).1 = applyEvents fs (runBatch w2).1 := by
  have h : runBatch w1 = runBatch w2 := runModels_congr w1 w2 hl hc hs models
  exact ⟨h, by rw [h], fun fs => by rw [h]⟩

/-- Witness for C9 at two distinct but call-for-call agreeing worlds. -/
theorem batch_deterministic_witness :
    runBatch okWorld = runBatch okWorld2 :=
  (batch_deterministic okWorld okWorld2
    (fun p => by simp [okWorld, okWorld2])
    (fun _ _ => rfl) (fun _ _ => rfl)).1

/-- C10: the handler catches only ordinary exceptions — when a
`BaseException` outside the `Exception` class is raised during any of a
model's load, conversion or save, it is not caught: no error line is
printed (the console shows only the progress line), the whole run
aborts carrying that raise, and the remaining names are never
attempted — the run over `name :: rest` is exactly the aborted
iteration's events. -/
theorem fatal_not_caught_aborts (w : World) (name : String)
    (rest : List String) (m : String)
    (h : w.load (name ++ ".onnx") = .fatal m ∨
      (∃ om, w.load (name ++ ".onnx") = .ok om ∧
        w.convert om convertCallConfig = .fatal m) ∨
      (∃ om mm, w.load (name ++ ".onnx") = .ok om ∧
        w.convert om convertCallConfig = .ok mm ∧
        w.save mm (name ++ ".mlmodel") = .fatal m)) :
    (processOne w name).2 = some m ∧
    consoleOf (processOne w name).1 = [progressLine name] ∧
    runModels w (name :: rest) = ((processOne w name).1, some m) := by
  have hs : (processOne w name).2 = some m := by
    rcases h with h1 | ⟨om, h1, h2⟩ | ⟨om, mm, h1, h2, h3⟩
    · simp [processOne, h1]
    · simp [processOne, h1, h2]
    · simp [processOne, h1, h2, h3]
  have hcon : consoleOf (processOne w name).1 = [progressLine name] := by
    rcases h with h1 | ⟨om, h1, h2⟩ | ⟨om, mm, h1, h2, h3⟩
    · simp [processOne, h1, consoleOf]
    · simp [processOne, h1, h2, consoleOf]
    · simp [processOne, h1, h2, h3, consoleOf]
  exact ⟨hs, hcon, runModels_cons_some w name rest m hs⟩

/-- Witness for C10 at a world whose load raises `KeyboardInterrupt`:
the iteration aborts carrying the raise, the console shows only the
progress line, and the run over two names stops with the first name's
events. -/
theorem fatal_not_caught_aborts_witness :
    (processOne fatalWorld "jarvis").2 = some "KeyboardInterrupt" ∧
    consoleOf (processOne fatalWorld "jarvis").1 = [progressLine "jarvis"] ∧
    runModels fatalWorld ["jarvis", "embedding_model"] =
      ((processOne fatalWorld "jarvis").1, some "KeyboardInterrupt") :=
  fatal_not_caught_aborts fatalWorld "jarvis" ["embedding_model"]
    "KeyboardInterrupt" (Or.inl rfl)
